import Mathlib

/-!
Verification of the EIP-7002 withdrawal-request module
(crates/eips/src/eip7002.rs): the WithdrawalRequest record, its RLP
(binary) and serde (textual) encodings, and the published protocol
constants.

Bytes are modelled as natural numbers (< 256 when well-formed); byte
strings as lists of naturals.  The RLP encode/decode behaviour of the
derived RlpEncodable/RlpDecodable implementations is modelled from the
spec (the derive lives in the external alloy-rlp crate): list framing,
fixed 20- and 48-byte string fields, and minimal big-endian canonical
integer payloads, with the canonical-form checks the spec describes.
-/

namespace Eip7002

/-- Fuel-indexed big-endian byte expansion; the fuel only drives the
structural recursion and is irrelevant once it is at least the value
being expanded. -/
def natToBeBytesAux : Nat → Nat → List Nat
  | 0, _ => []
  | fuel + 1, n => if n = 0 then [] else natToBeBytesAux fuel (n / 256) ++ [n % 256]

/-- Minimal big-endian byte representation of a natural number: the
payload of the canonical RLP integer encoding (zero gives the empty
list, otherwise most significant byte first with no leading zero). -/
def natToBeBytes (n : Nat) : List Nat :=
  natToBeBytesAux n n

instance {ε α : Type} [DecidableEq ε] [DecidableEq α] :
    DecidableEq (Except ε α) := fun x y =>
  match x, y with
  | .ok a, .ok b => decidable_of_iff (a = b) (by simp)
  | .error e, .error e₂ => decidable_of_iff (e = e₂) (by simp)
  | .ok _, .error _ => isFalse (fun h => Except.noConfusion h)
  | .error _, .ok _ => isFalse (fun h => Except.noConfusion h)

/-- Big-endian interpretation of a byte list as a natural number. -/
def beBytesToNat (bs : List Nat) : Nat :=
  bs.foldl (fun acc b => acc * 256 + b) 0

/-- Modelled from the spec: the RLP length prefix used by the external
alloy-rlp crate.  A payload length below 56 is added to the offset byte
(0x80 for strings, 0xc0 for lists); otherwise the offset plus 55 plus
the byte length of the big-endian length is emitted, followed by the
length bytes. -/
def encodeLength (offset len : Nat) : List Nat :=
  if len < 56 then [offset + len]
  else (offset + 55 + (natToBeBytes len).length) :: natToBeBytes len

/-- Modelled from the spec: RLP encoding of a byte string.  A single
byte below 0x80 encodes as itself; otherwise a string header precedes
the payload. -/
def encodeBytes (s : List Nat) : List Nat :=
  if s.length = 1 ∧ s.headI < 0x80 then s
  else encodeLength 0x80 s.length ++ s

/-- Modelled from the spec: RLP encoding of an unsigned 64-bit integer,
the byte-string encoding of its minimal big-endian representation
(zero encodes as the empty string header 0x80). -/
def encodeU64 (n : Nat) : List Nat :=
  encodeBytes (natToBeBytes n)

/-- The WithdrawalRequest record of crates/eips/src/eip7002.rs: a
20-byte source address, a 48-byte validator public key and a u64
amount in gwei.  Field widths are stated as hypotheses where proofs
need them. -/
structure WithdrawalRequest where
  source_address : List Nat
  validator_pubkey : List Nat
  amount : Nat
deriving DecidableEq, Repr

/-- Well-formedness of a WithdrawalRequest value: the field widths and
byte ranges guaranteed by the Rust types Address, FixedBytes 48 and
u64. -/
def WithdrawalRequest.WF (x : WithdrawalRequest) : Prop :=
  x.source_address.length = 20 ∧ (∀ b ∈ x.source_address, b < 256) ∧
  x.validator_pubkey.length = 48 ∧ (∀ b ∈ x.validator_pubkey, b < 256) ∧
  x.amount < 2 ^ 64

instance (x : WithdrawalRequest) : Decidable x.WF := by
  unfold WithdrawalRequest.WF; infer_instance

/-- Modelled from the spec: the derived RlpEncodable implementation.
The three fields encode in order into a payload which is wrapped in an
outer list header. -/
def withdrawalRequestEncode (x : WithdrawalRequest) : List Nat :=
  let payload :=
    encodeBytes x.source_address ++ encodeBytes x.validator_pubkey ++
      encodeU64 x.amount
  encodeLength 0xc0 payload.length ++ payload

/-- An RLP item header: whether the item is a list, and its payload
length in bytes. -/
structure RlpHeader where
  isList : Bool
  payloadLength : Nat
deriving DecidableEq, Repr

/-- Modelled from the spec: decoding the long (multi-byte) length form
of an RLP header.  The length bytes must be present, must not start
with a zero byte, must denote a length of at least 56, and the payload
itself must fit in the remaining input. -/
def decodeLongLength (isL : Bool) (lenOfLen : Nat) (rest : List Nat) :
    Except String (RlpHeader × List Nat) :=
  if rest.length < lenOfLen then .error "InputTooShort"
  else if (rest.take lenOfLen).headI = 0 then .error "LeadingZero"
  else if beBytesToNat (rest.take lenOfLen) < 56 then .error "NonCanonicalSize"
  else if (rest.drop lenOfLen).length < beBytesToNat (rest.take lenOfLen) then
    .error "InputTooShort"
  else .ok (⟨isL, beBytesToNat (rest.take lenOfLen)⟩, rest.drop lenOfLen)

/-- Modelled from the spec: RLP header decoding with the canonical-form
checks of the external alloy-rlp crate.  A byte below 0x80 is a
single-byte string (the buffer is not advanced); 0x80..0xb7 is a short
string (a one-byte payload below 0x80 is rejected as non-canonical);
0xb8..0xbf a long string; 0xc0..0xf7 a short list; 0xf8..0xff a long
list.  In every successful case the remaining buffer holds at least
the payload. -/
def decodeHeader (bs : List Nat) : Except String (RlpHeader × List Nat) :=
  match bs with
  | [] => .error "InputTooShort"
  | b :: rest =>
    if b < 0x80 then .ok (⟨false, 1⟩, b :: rest)
    else if b ≤ 0xb7 then
      if b - 0x80 = 1 ∧ 1 ≤ rest.length ∧ rest.headI < 0x80 then
        .error "NonCanonicalSingleByte"
      else if rest.length < b - 0x80 then .error "InputTooShort"
      else .ok (⟨false, b - 0x80⟩, rest)
    else if b ≤ 0xbf then decodeLongLength false (b - 0xb7) rest
    else if b ≤ 0xf7 then
      if rest.length < b - 0xc0 then .error "InputTooShort"
      else .ok (⟨true, b - 0xc0⟩, rest)
    else decodeLongLength true (b - 0xf7) rest

/-- Modelled from the spec: decoding a fixed-width byte-string field
(Address is width 20, the validator key width 48).  The item must be a
string whose payload length equals the expected width exactly. -/
def decodeFixedBytes (w : Nat) (bs : List Nat) :
    Except String (List Nat × List Nat) :=
  match decodeHeader bs with
  | .error e => .error e
  | .ok (h, rest) =>
    if h.isList then .error "UnexpectedList"
    else if h.payloadLength ≠ w then .error "UnexpectedLength"
    else .ok (rest.take w, rest.drop w)

/-- Modelled from the spec: decoding a u64 field.  The item must be a
string of at most 8 payload bytes with no leading zero byte; the empty
payload denotes zero. -/
def decodeU64 (bs : List Nat) : Except String (Nat × List Nat) :=
  match decodeHeader bs with
  | .error e => .error e
  | .ok (h, rest) =>
    if h.isList then .error "UnexpectedList"
    else if 8 < h.payloadLength then .error "Overflow"
    else if (rest.take h.payloadLength).headI = 0 ∧
        rest.take h.payloadLength ≠ [] then .error "LeadingZero"
    else .ok (beBytesToNat (rest.take h.payloadLength),
      rest.drop h.payloadLength)

/-- Modelled from the spec: the derived RlpDecodable implementation.
One list header is consumed, then the three fields in order, and the
bytes consumed by the fields must equal the declared payload length;
the unconsumed tail of the buffer is returned alongside the record. -/
def withdrawalRequestDecode (bs : List Nat) :
    Except String (WithdrawalRequest × List Nat) :=
  match decodeHeader bs with
  | .error e => .error e
  | .ok (h, rest) =>
    if ¬ h.isList then .error "UnexpectedString"
    else
      match decodeFixedBytes 20 rest with
      | .error e => .error e
      | .ok (a, r1) =>
        match decodeFixedBytes 48 r1 with
        | .error e => .error e
        | .ok (pk, r2) =>
          match decodeU64 r2 with
          | .error e => .error e
          | .ok (amt, r3) =>
            if rest.length - r3.length ≠ h.payloadLength then
              .error "ListLengthMismatch"
            else .ok (⟨a, pk, amt⟩, r3)


/-- Modelled from the spec: the hex-literal expansion performed at
compile time by the byte-string literal of the source (whitespace in
the literal is ignored, hex digit pairs become bytes). -/
def hexLiteralChars (s : String) : List Char :=
  s.data.filter (fun c => !c.isWhitespace)

/-- Value of a hexadecimal digit character, accepting both cases;
none for a non-hex character. -/
def hexCharToNibble (c : Char) : Option Nat :=
  if 48 ≤ c.toNat ∧ c.toNat ≤ 57 then some (c.toNat - 48)
  else if 97 ≤ c.toNat ∧ c.toNat ≤ 102 then some (c.toNat - 87)
  else if 65 ≤ c.toNat ∧ c.toNat ≤ 70 then some (c.toNat - 55)
  else none

/-- Decode a character list as hex digit pairs; fails on an odd count
or a non-hex character. -/
def hexPairsToBytes : List Char → Option (List Nat)
  | [] => some []
  | [_] => none
  | c1 :: c2 :: t =>
    match hexCharToNibble c1, hexCharToNibble c2, hexPairsToBytes t with
    | some hi, some lo, some bs => some ((16 * hi + lo) :: bs)
    | _, _, _ => none

/-- The system caller address constant SYSTEM_ADDRESS of the source,
an address literal expanded to its 20 bytes. -/
def SYSTEM_ADDRESS : List Nat :=
  (hexPairsToBytes (hexLiteralChars "fffffffffffffffffffffffffffffffffffffffe")).getD []

/-- The predeploy contract address constant
WITHDRAWAL_REQUEST_PREDEPLOY_ADDRESS of the source, an address literal
(mixed-case hex) expanded to its 20 bytes. -/
def WITHDRAWAL_REQUEST_PREDEPLOY_ADDRESS : List Nat :=
  (hexPairsToBytes (hexLiteralChars "09Fc772D0857550724b07B850a4323f39112aAaA")).getD []

/-- The predeploy contract bytecode constant
WITHDRAWAL_REQUEST_PREDEPLOY_CODE of the source: the verbatim
hex-string literal of the source (including its leading whitespace,
which the literal expansion ignores). -/
def WITHDRAWAL_REQUEST_PREDEPLOY_CODE : List Nat :=
  (hexPairsToBytes (hexLiteralChars "   3373fffffffffffffffffffffffffffffffffffffffe1460c7573615156028575f545f5260205ff35b36603814156101f05760115f54807fffffffffffffffffffffffffffffffffffffffffffffffffffffffffffffffff146101f057600182026001905f5b5f821115608057810190830284830290049160010191906065565b9093900434106101f057600154600101600155600354806003026004013381556001015f35815560010160203590553360601b5f5260385f601437604c5fa0600101600355005b6003546002548082038060101160db575060105b5f5b81811461017f5780604c02838201600302600401805490600101805490600101549160601b83528260140152807fffffffffffffffffffffffffffffffff0000000000000000000000000000000016826034015260401c906044018160381c81600701538160301c81600601538160281c81600501538160201c81600401538160181c81600301538160101c81600201538160081c81600101535360010160dd565b9101809214610191579060025561019c565b90505f6002555f6003555b5f54807fffffffffffffffffffffffffffffffffffffffffffffffffffffffffffffffff14156101c957505f5b6001546002828201116101de5750505f6101e4565b01600290035b5f555f600155604c025ff35b5f5ffd")).getD []

/-- The request-type discriminant constant WITHDRAWAL_REQUEST_TYPE of
the source. -/
def WITHDRAWAL_REQUEST_TYPE : Nat := 0x01

/-- Modelled from the spec: the system-caller address literal of
spec section 6, written out byte for byte. -/
def specSystemCallerAddress : List Nat :=
  [0xff, 0xff, 0xff, 0xff, 0xff, 0xff, 0xff, 0xff, 0xff, 0xff,
   0xff, 0xff, 0xff, 0xff, 0xff, 0xff, 0xff, 0xff, 0xff, 0xfe]

/-- Modelled from the spec: the predeploy address literal of spec
section 6, written out byte for byte. -/
def specPredeployAddress : List Nat :=
  [0x09, 0xfc, 0x77, 0x2d, 0x08, 0x57, 0x55, 0x07, 0x24, 0xb0,
   0x7b, 0x85, 0x0a, 0x43, 0x23, 0xf3, 0x91, 0x12, 0xaa, 0xaa]

/-- Modelled from the spec: the request-type discriminant byte 0x01 of
spec section 6. -/
def specRequestTypeByte : Nat := 0x01

/-- Lower-case hexadecimal digit character for a nibble 0..15. -/
def nibbleToLowerHexChar (d : Nat) : Char :=
  if d < 10 then Char.ofNat (48 + d) else Char.ofNat (87 + d)

/-- Upper-case hexadecimal digit character for a nibble 0..15; used to
build mixed-case inputs when checking case-insensitive decoding. -/
def nibbleToUpperHexChar (d : Nat) : Char :=
  if d < 10 then Char.ofNat (48 + d) else Char.ofNat (55 + d)

/-- Lower-case hex character expansion of a byte list, two characters
per byte. -/
def bytesToLowerHexChars : List Nat → List Char
  | [] => []
  | b :: t =>
    nibbleToLowerHexChar (b / 16) :: nibbleToLowerHexChar (b % 16) ::
      bytesToLowerHexChars t

/-- Upper-case hex character expansion of a byte list. -/
def bytesToUpperHexChars : List Nat → List Char
  | [] => []
  | b :: t =>
    nibbleToUpperHexChar (b / 16) :: nibbleToUpperHexChar (b % 16) ::
      bytesToUpperHexChars t

/-- Modelled from the spec: serde serialization of the fixed-byte
fields (Address, FixedBytes 48, implemented in the external
alloy-primitives crate): a 0x-prefixed lowercase hex string. -/
def serializeHexBytes (bs : List Nat) : String :=
  String.mk ('0' :: 'x' :: bytesToLowerHexChars bs)

/-- The same hex string with upper-case digits: a mixed-case input a
client may send; never produced by the serializer. -/
def serializeHexBytesUpper (bs : List Nat) : String :=
  String.mk ('0' :: 'x' :: bytesToUpperHexChars bs)

/-- Modelled from the spec: serde deserialization of a fixed-byte
field: the value must be a 0x-prefixed hex string of exactly the
expected character count, hex digits accepted in either case; anything
else is a typed error. -/
def parseHexFixed (w : Nat) (s : String) : Except String (List Nat) :=
  if 2 ≤ s.data.length ∧ s.data.headI = '0' ∧ s.data.tail.headI = 'x' then
    if (s.data.drop 2).length = 2 * w then
      match hexPairsToBytes (s.data.drop 2) with
      | some bs => .ok bs
      | none => .error "invalid hex character"
    else .error "invalid string length"
  else .error "missing hex marker 0x"

/-- Fuel-indexed decimal digit expansion (most significant first); the
fuel drives the structural recursion only. -/
def decDigitsAux : Nat → Nat → List Char
  | 0, _ => []
  | fuel + 1, n =>
    if n < 10 then [Char.ofNat (48 + n)]
    else decDigitsAux fuel (n / 10) ++ [Char.ofNat (48 + n % 10)]

/-- Decimal digit characters of a natural number, as produced by the
integer Display implementation ("0" for zero, no leading zeros). -/
def natToDecDigits (n : Nat) : List Char :=
  decDigitsAux (n + 1) n

/-- The DisplayFromStr serialization of the amount field: the
serde_as attribute in the source serializes a u64 through its Display
form, which is the plain decimal string. -/
def natToDecString (n : Nat) : String :=
  String.mk (natToDecDigits n)

/-- Decimal reading of a digit character list. -/
def parseDecDigits (cs : List Char) : Nat :=
  cs.foldl (fun acc c => acc * 10 + (c.toNat - 48)) 0

/-- The DisplayFromStr deserialization of the amount field: the
serde_as attribute in the source parses the string with the u64
FromStr implementation — an optional plus sign followed by decimal
digits only, rejecting anything else and values outside 64 bits. -/
def parseU64FromStr (s : String) : Except String Nat :=
  if s.data = [] then .error "cannot parse integer from empty string"
  else if s.data.headI = '+' then
    if s.data.tail = [] then .error "invalid digit found in string"
    else if s.data.tail.all (fun c => c.isDigit) then
      if parseDecDigits s.data.tail < 2 ^ 64 then
        .ok (parseDecDigits s.data.tail)
      else .error "number too large to fit in target type"
    else .error "invalid digit found in string"
  else if s.data.all (fun c => c.isDigit) then
    if parseDecDigits s.data < 2 ^ 64 then .ok (parseDecDigits s.data)
    else .error "number too large to fit in target type"
  else .error "invalid digit found in string"

/-- The textual (serde JSON) encoding of a WithdrawalRequest as a
key/value list.  The derived Serialize implementation in the source
has no field renaming attribute, so the keys are the Rust field names
verbatim; the amount field goes through DisplayFromStr (decimal). -/
def textEncode (x : WithdrawalRequest) : List (String × String) :=
  [("source_address", serializeHexBytes x.source_address),
   ("validator_pubkey", serializeHexBytes x.validator_pubkey),
   ("amount", natToDecString x.amount)]

/-- The textual (serde JSON) decoding of a WithdrawalRequest from a
key/value list.  Each field is looked up under the Rust field name
(the derive has no renaming attribute); unknown keys are ignored, as
serde does by default.  The amount value goes through the u64 FromStr
implementation per the DisplayFromStr attribute. -/
def textDecode (kvs : List (String × String)) :
    Except String WithdrawalRequest :=
  match kvs.lookup "source_address" with
  | none => .error "missing field source_address"
  | some sv =>
    match parseHexFixed 20 sv with
    | .error e => .error e
    | .ok sa =>
      match kvs.lookup "validator_pubkey" with
      | none => .error "missing field validator_pubkey"
      | some pv =>
        match parseHexFixed 48 pv with
        | .error e => .error e
        | .ok pk =>
          match kvs.lookup "amount" with
          | none => .error "missing field amount"
          | some av =>
            match parseU64FromStr av with
            | .error e => .error e
            | .ok amt => .ok ⟨sa, pk, amt⟩

/-- The camel-case key/value list the spec (and the test inside the
source file) uses for the textual form; built here to feed the actual
decoder. -/
def camelCaseTextInput (x : WithdrawalRequest) : List (String × String) :=
  [("sourceAddress", serializeHexBytes x.source_address),
   ("validatorPubkey", serializeHexBytes x.validator_pubkey),
   ("amount", natToDecString x.amount)]

/-- The key/value list a client may send with upper-case hex digits in
the two byte-string fields; used to state case-insensitive decoding. -/
def upperCaseTextInput (x : WithdrawalRequest) : List (String × String) :=
  [("source_address", serializeHexBytesUpper x.source_address),
   ("validator_pubkey", serializeHexBytesUpper x.validator_pubkey),
   ("amount", natToDecString x.amount)]

/-- A character is a lower-case hexadecimal digit: 0-9 or a-f,
never A-F. -/
def isLowerHexDigit (c : Char) : Prop :=
  (48 ≤ c.toNat ∧ c.toNat ≤ 57) ∨ (97 ≤ c.toNat ∧ c.toNat ≤ 102)

instance (c : Char) : Decidable (isLowerHexDigit c) := by
  unfold isLowerHexDigit; infer_instance

/-- The value of the derived Default implementation: zero-filled
address and public key, amount zero. -/
def defaultWithdrawalRequest : WithdrawalRequest :=
  ⟨List.replicate 20 0, List.replicate 48 0, 0⟩

/-- Modelled from the spec: the fixed contract bytecode blob published
verbatim (spec section 6), written out byte for byte. -/
def specPredeployCodeBytes : List Nat :=
  [0x33, 0x73, 0xff, 0xff, 0xff, 0xff, 0xff, 0xff, 0xff, 0xff, 0xff, 0xff,
  0xff, 0xff, 0xff, 0xff, 0xff, 0xff, 0xff, 0xff, 0xff, 0xfe, 0x14, 0x60,
  0xc7, 0x57, 0x36, 0x15, 0x15, 0x60, 0x28, 0x57, 0x5f, 0x54, 0x5f, 0x52,
  0x60, 0x20, 0x5f, 0xf3, 0x5b, 0x36, 0x60, 0x38, 0x14, 0x15, 0x61, 0x01,
  0xf0, 0x57, 0x60, 0x11, 0x5f, 0x54, 0x80, 0x7f, 0xff, 0xff, 0xff, 0xff,
  0xff, 0xff, 0xff, 0xff, 0xff, 0xff, 0xff, 0xff, 0xff, 0xff, 0xff, 0xff,
  0xff, 0xff, 0xff, 0xff, 0xff, 0xff, 0xff, 0xff, 0xff, 0xff, 0xff, 0xff,
  0xff, 0xff, 0xff, 0xff, 0x14, 0x61, 0x01, 0xf0, 0x57, 0x60, 0x01, 0x82,
  0x02, 0x60, 0x01, 0x90, 0x5f, 0x5b, 0x5f, 0x82, 0x11, 0x15, 0x60, 0x80,
  0x57, 0x81, 0x01, 0x90, 0x83, 0x02, 0x84, 0x83, 0x02, 0x90, 0x04, 0x91,
  0x60, 0x01, 0x01, 0x91, 0x90, 0x60, 0x65, 0x56, 0x5b, 0x90, 0x93, 0x90,
  0x04, 0x34, 0x10, 0x61, 0x01, 0xf0, 0x57, 0x60, 0x01, 0x54, 0x60, 0x01,
  0x01, 0x60, 0x01, 0x55, 0x60, 0x03, 0x54, 0x80, 0x60, 0x03, 0x02, 0x60,
  0x04, 0x01, 0x33, 0x81, 0x55, 0x60, 0x01, 0x01, 0x5f, 0x35, 0x81, 0x55,
  0x60, 0x01, 0x01, 0x60, 0x20, 0x35, 0x90, 0x55, 0x33, 0x60, 0x60, 0x1b,
  0x5f, 0x52, 0x60, 0x38, 0x5f, 0x60, 0x14, 0x37, 0x60, 0x4c, 0x5f, 0xa0,
  0x60, 0x01, 0x01, 0x60, 0x03, 0x55, 0x00, 0x5b, 0x60, 0x03, 0x54, 0x60,
  0x02, 0x54, 0x80, 0x82, 0x03, 0x80, 0x60, 0x10, 0x11, 0x60, 0xdb, 0x57,
  0x50, 0x60, 0x10, 0x5b, 0x5f, 0x5b, 0x81, 0x81, 0x14, 0x61, 0x01, 0x7f,
  0x57, 0x80, 0x60, 0x4c, 0x02, 0x83, 0x82, 0x01, 0x60, 0x03, 0x02, 0x60,
  0x04, 0x01, 0x80, 0x54, 0x90, 0x60, 0x01, 0x01, 0x80, 0x54, 0x90, 0x60,
  0x01, 0x01, 0x54, 0x91, 0x60, 0x60, 0x1b, 0x83, 0x52, 0x82, 0x60, 0x14,
  0x01, 0x52, 0x80, 0x7f, 0xff, 0xff, 0xff, 0xff, 0xff, 0xff, 0xff, 0xff,
  0xff, 0xff, 0xff, 0xff, 0xff, 0xff, 0xff, 0xff, 0x00, 0x00, 0x00, 0x00,
  0x00, 0x00, 0x00, 0x00, 0x00, 0x00, 0x00, 0x00, 0x00, 0x00, 0x00, 0x00,
  0x16, 0x82, 0x60, 0x34, 0x01, 0x52, 0x60, 0x40, 0x1c, 0x90, 0x60, 0x44,
  0x01, 0x81, 0x60, 0x38, 0x1c, 0x81, 0x60, 0x07, 0x01, 0x53, 0x81, 0x60,
  0x30, 0x1c, 0x81, 0x60, 0x06, 0x01, 0x53, 0x81, 0x60, 0x28, 0x1c, 0x81,
  0x60, 0x05, 0x01, 0x53, 0x81, 0x60, 0x20, 0x1c, 0x81, 0x60, 0x04, 0x01,
  0x53, 0x81, 0x60, 0x18, 0x1c, 0x81, 0x60, 0x03, 0x01, 0x53, 0x81, 0x60,
  0x10, 0x1c, 0x81, 0x60, 0x02, 0x01, 0x53, 0x81, 0x60, 0x08, 0x1c, 0x81,
  0x60, 0x01, 0x01, 0x53, 0x53, 0x60, 0x01, 0x01, 0x60, 0xdd, 0x56, 0x5b,
  0x91, 0x01, 0x80, 0x92, 0x14, 0x61, 0x01, 0x91, 0x57, 0x90, 0x60, 0x02,
  0x55, 0x61, 0x01, 0x9c, 0x56, 0x5b, 0x90, 0x50, 0x5f, 0x60, 0x02, 0x55,
  0x5f, 0x60, 0x03, 0x55, 0x5b, 0x5f, 0x54, 0x80, 0x7f, 0xff, 0xff, 0xff,
  0xff, 0xff, 0xff, 0xff, 0xff, 0xff, 0xff, 0xff, 0xff, 0xff, 0xff, 0xff,
  0xff, 0xff, 0xff, 0xff, 0xff, 0xff, 0xff, 0xff, 0xff, 0xff, 0xff, 0xff,
  0xff, 0xff, 0xff, 0xff, 0xff, 0x14, 0x15, 0x61, 0x01, 0xc9, 0x57, 0x50,
  0x5f, 0x5b, 0x60, 0x01, 0x54, 0x60, 0x02, 0x82, 0x82, 0x01, 0x11, 0x61,
  0x01, 0xde, 0x57, 0x50, 0x50, 0x5f, 0x61, 0x01, 0xe4, 0x56, 0x5b, 0x01,
  0x60, 0x02, 0x90, 0x03, 0x5b, 0x5f, 0x55, 0x5f, 0x60, 0x01, 0x55, 0x60,
  0x4c, 0x02, 0x5f, 0xf3, 0x5b, 0x5f, 0x5f, 0xfd]

/-- The concrete vector of the spec (section 8) and of the source
round-trip test: address ae0e8770147aaa6828a0d6f642504663f10f7d1e, the
48-byte public key 8e8d...793b, amount 10. -/
def testVector : WithdrawalRequest :=
  ⟨[0xae, 0x0e, 0x87, 0x70, 0x14, 0x7a, 0xaa, 0x68, 0x28, 0xa0,
    0xd6, 0xf6, 0x42, 0x50, 0x46, 0x63, 0xf1, 0x0f, 0x7d, 0x1e],
   [0x8e, 0x8d, 0x87, 0x49, 0xf6, 0xbc, 0x79, 0xb7, 0x8b, 0xe7, 0xcc, 0x6e,
    0x49, 0xff, 0x64, 0x0e, 0x60, 0x84, 0x54, 0x84, 0x0c, 0x36, 0x0b, 0x34,
    0x4c, 0x3a, 0x4d, 0x9b, 0x74, 0x28, 0xe2, 0x80, 0xe7, 0xf4, 0x0d, 0x22,
    0x71, 0xba, 0xd6, 0x5d, 0x8c, 0xbb, 0xfd, 0xd4, 0x3c, 0xb8, 0x79, 0x3b],
   10⟩

theorem natToBeBytesAux_congr :
    ∀ f₁ : Nat, ∀ f₂ n : Nat, n ≤ f₁ → n ≤ f₂ →
      natToBeBytesAux f₁ n = natToBeBytesAux f₂ n := by
  intro f₁
  induction f₁ using Nat.strong_induction_on with
  | _ f₁ ih =>
    intro f₂ n h₁ h₂
    match f₁, f₂ with
    | 0, 0 => rfl
    | 0, f₂ + 1 =>
      interval_cases n
      simp [natToBeBytesAux]
    | f₁ + 1, 0 =>
      interval_cases n
      simp [natToBeBytesAux]
    | f₁ + 1, f₂ + 1 =>
      by_cases hn : n = 0
      · simp [natToBeBytesAux, hn]
      · have hdiv : n / 256 < n := Nat.div_lt_self (Nat.pos_of_ne_zero hn) (by norm_num)
        simp only [natToBeBytesAux, hn, if_false]
        rw [ih f₁ (Nat.lt_succ_self f₁) f₂ (n / 256) (by omega) (by omega)]

theorem natToBeBytes_eq (n : Nat) :
    natToBeBytes n =
      if n = 0 then [] else natToBeBytes (n / 256) ++ [n % 256] := by
  by_cases hn : n = 0
  · simp [natToBeBytes, natToBeBytesAux, hn]
  · obtain ⟨f, rfl⟩ : ∃ f, n = f + 1 := ⟨n - 1, by omega⟩
    simp only [natToBeBytes, natToBeBytesAux, hn, if_false]
    rw [natToBeBytesAux_congr f ((f + 1) / 256) ((f + 1) / 256)
      (by have := Nat.div_lt_self (Nat.succ_pos f) (by norm_num : 1 < 256); omega)
      (Nat.le_refl _)]

example :
    withdrawalRequestDecode
      (withdrawalRequestEncode ⟨List.replicate 20 7, List.replicate 48 9, 10⟩) =
    .ok (⟨List.replicate 20 7, List.replicate 48 9, 10⟩, []) := by decide

example :
    withdrawalRequestDecode
      (withdrawalRequestEncode ⟨List.replicate 20 0, List.replicate 48 0, 0⟩) =
    .ok (⟨List.replicate 20 0, List.replicate 48 0, 0⟩, []) := by decide

example : encodeU64 0 = [0x80] := by decide
example : encodeU64 0x80 = [0x81, 0x80] := by decide
example : encodeU64 354 = [0x82, 0x01, 0x62] := by decide

theorem natToBeBytes_zero : natToBeBytes 0 = [] := rfl

theorem natToBeBytes_small (n : Nat) (h0 : n ≠ 0) (h : n < 256) :
    natToBeBytes n = [n] := by
  rw [natToBeBytes_eq, if_neg h0, Nat.div_eq_of_lt h, natToBeBytes_zero,
    Nat.mod_eq_of_lt h, List.nil_append]

theorem natToBeBytes_ne_nil (n : Nat) (h0 : n ≠ 0) : natToBeBytes n ≠ [] := by
  rw [natToBeBytes_eq, if_neg h0]
  simp

theorem natToBeBytes_cons_head_ne_zero (n : Nat) (h0 : n ≠ 0) :
    ∃ h t, natToBeBytes n = h :: t ∧ h ≠ 0 := by
  induction n using Nat.strong_induction_on with
  | _ n ih =>
    rw [natToBeBytes_eq, if_neg h0]
    by_cases hq : n / 256 = 0
    · have hlt : n < 256 := by
        by_contra hc
        have h1 : 256 / 256 ≤ n / 256 := Nat.div_le_div_right (Nat.le_of_not_lt hc)
        have h2 : 256 / 256 = 1 := by norm_num
        omega
      rw [hq, natToBeBytes_zero, List.nil_append]
      exact ⟨n % 256, [], rfl, by rwa [Nat.mod_eq_of_lt hlt]⟩
    · obtain ⟨h, t, heq, hne⟩ :=
        ih (n / 256) (Nat.div_lt_self (Nat.pos_of_ne_zero h0) (by norm_num)) hq
      exact ⟨h, t ++ [n % 256], by rw [heq]; rfl, hne⟩

theorem natToBeBytes_headI_ne_zero (n : Nat) (h0 : n ≠ 0) :
    (natToBeBytes n).headI ≠ 0 := by
  obtain ⟨h, t, heq, hne⟩ := natToBeBytes_cons_head_ne_zero n h0
  rw [heq]; exact hne

theorem natToBeBytes_length_le (k : Nat) :
    ∀ n : Nat, n < 256 ^ k → (natToBeBytes n).length ≤ k := by
  induction k with
  | zero =>
    intro n hn
    interval_cases n
    simp [natToBeBytes_zero]
  | succ k ih =>
    intro n hn
    by_cases h0 : n = 0
    · simp [h0, natToBeBytes_zero]
    · rw [natToBeBytes_eq, if_neg h0, List.length_append, List.length_singleton]
      have : n / 256 < 256 ^ k := by
        rw [Nat.div_lt_iff_lt_mul (by norm_num)]
        calc n < 256 ^ (k + 1) := hn
        _ = 256 ^ k * 256 := by ring
      exact Nat.add_le_add_right (ih (n / 256) this) 1

theorem natToBeBytes_length_ge_two (n : Nat) (h : 256 ≤ n) :
    2 ≤ (natToBeBytes n).length := by
  have h0 : n ≠ 0 := by omega
  rw [natToBeBytes_eq, if_neg h0, List.length_append, List.length_singleton]
  have hq : n / 256 ≠ 0 := by
    intro hc
    have := Nat.div_eq_of_lt (show n < 256 by omega)
    omega
  have := List.length_pos.mpr (natToBeBytes_ne_nil (n / 256) hq)
  omega

theorem beBytesToNat_nil : beBytesToNat [] = 0 := rfl

theorem beBytesToNat_singleton (b : Nat) : beBytesToNat [b] = b := by
  simp [beBytesToNat]

theorem beBytesToNat_append_singleton (l : List Nat) (b : Nat) :
    beBytesToNat (l ++ [b]) = beBytesToNat l * 256 + b := by
  simp [beBytesToNat, List.foldl_append]

theorem beBytesToNat_natToBeBytes (n : Nat) :
    beBytesToNat (natToBeBytes n) = n := by
  induction n using Nat.strong_induction_on with
  | _ n ih =>
    by_cases h0 : n = 0
    · simp [h0, natToBeBytes_zero, beBytesToNat_nil]
    · rw [natToBeBytes_eq, if_neg h0, beBytesToNat_append_singleton,
        ih (n / 256) (Nat.div_lt_self (Nat.pos_of_ne_zero h0) (by norm_num))]
      omega

/-- Decoding the header of an encoded byte string of length 2..55
yields a string header of that length, positioned at the payload. -/
theorem decodeHeader_encodeBytes (s rest : List Nat)
    (h2 : 2 ≤ s.length) (h56 : s.length < 56) :
    decodeHeader (encodeBytes s ++ rest) =
      .ok (⟨false, s.length⟩, s ++ rest) := by
  have hs1 : ¬(s.length = 1 ∧ s.headI < 0x80) := fun h => by omega
  rw [encodeBytes, if_neg hs1, encodeLength, if_pos h56]
  have hshape : ([0x80 + s.length] ++ s) ++ rest =
      (0x80 + s.length) :: (s ++ rest) := by simp
  rw [hshape]
  simp only [decodeHeader]
  rw [if_neg (by omega : ¬ 0x80 + s.length < 0x80),
    if_pos (by omega : 0x80 + s.length ≤ 0xb7),
    if_neg (by rintro ⟨hc1, -, -⟩; omega :
      ¬(0x80 + s.length - 0x80 = 1 ∧ 1 ≤ (s ++ rest).length ∧
        (s ++ rest).headI < 0x80)),
    if_neg (by rw [List.length_append]; omega :
      ¬ (s ++ rest).length < 0x80 + s.length - 0x80)]
  norm_num

/-- Decoding the header of an RLP list frame with payload length
56..255 yields a list header of that length, positioned at the
payload. -/
theorem decodeHeader_encodeLength_list (L : Nat) (rest : List Nat)
    (h1 : 56 ≤ L) (h2 : L < 256) (h3 : L ≤ rest.length) :
    decodeHeader (encodeLength 0xc0 L ++ rest) = .ok (⟨true, L⟩, rest) := by
  rw [encodeLength, if_neg (by omega : ¬ L < 56),
    natToBeBytes_small L (by omega) h2]
  have hshape : ((0xc0 + 55 + [L].length) :: [L]) ++ rest =
      0xf8 :: L :: rest := by simp
  rw [hshape]
  simp only [decodeHeader]
  rw [if_neg (by norm_num), if_neg (by norm_num), if_neg (by norm_num),
    if_neg (by norm_num)]
  have hll : (0xf8 : Nat) - 0xf7 = 1 := by norm_num
  rw [hll]
  have ht : (L :: rest).take 1 = [L] := rfl
  have hd : (L :: rest).drop 1 = rest := rfl
  rw [decodeLongLength, ht, hd]
  have hLh : [L].headI = L := rfl
  rw [if_neg (by simp : ¬ (L :: rest).length < 1),
    if_neg (by rw [hLh]; omega : ¬ [L].headI = 0),
    beBytesToNat_singleton,
    if_neg (by omega : ¬ L < 56),
    if_neg (by omega : ¬ rest.length < L)]

/-- Decoding a fixed-width field from an encoded string of the right
width succeeds and leaves the trailing bytes unconsumed. -/
theorem decodeFixedBytes_encodeBytes (s rest : List Nat)
    (h2 : 2 ≤ s.length) (h56 : s.length < 56) :
    decodeFixedBytes s.length (encodeBytes s ++ rest) = .ok (s, rest) := by
  simp only [decodeFixedBytes, decodeHeader_encodeBytes s rest h2 h56]
  simp [List.take_left, List.drop_left]

/-- Decoding a u64 field from its canonical encoding yields the value
back and leaves the trailing bytes unconsumed. -/
theorem decodeU64_encodeU64 (n : Nat) (rest : List Nat) (h : n < 2 ^ 64) :
    decodeU64 (encodeU64 n ++ rest) = .ok (n, rest) := by
  rcases Nat.lt_or_ge n 256 with h256 | h256
  · rcases Nat.eq_zero_or_pos n with rfl | hpos
    · have he : encodeU64 0 = [0x80] := rfl
      rw [he]
      have hh : decodeHeader (0x80 :: rest) = .ok (⟨false, 0⟩, rest) := by
        simp [decodeHeader]
      show decodeU64 (0x80 :: rest) = .ok (0, rest)
      simp only [decodeU64, hh]
      simp [beBytesToNat_nil]
    · have hnb : natToBeBytes n = [n] := natToBeBytes_small n (by omega) h256
      rcases Nat.lt_or_ge n 0x80 with h128 | h128
      · have he : encodeU64 n = [n] := by
          rw [encodeU64, hnb, encodeBytes,
            if_pos ⟨rfl, by simpa [List.headI] using h128⟩]
        rw [he]
        have hh : decodeHeader (n :: rest) = .ok (⟨false, 1⟩, n :: rest) := by
          simp only [decodeHeader]
          rw [if_pos h128]
        show decodeU64 (n :: rest) = .ok (n, rest)
        simp only [decodeU64, hh]
        have ht1 : (n :: rest).take 1 = [n] := rfl
        have hd1 : (n :: rest).drop 1 = rest := rfl
        simp only [ht1, hd1]
        rw [if_neg (by simp : ((⟨false, 1⟩ : RlpHeader).isList = true → False)),
          if_neg (by norm_num : ¬ 8 < (⟨false, 1⟩ : RlpHeader).payloadLength),
          if_neg (by rintro ⟨hc1, -⟩; simp [List.headI] at hc1; omega :
            ¬([n].headI = 0 ∧ [n] ≠ [])),
          beBytesToNat_singleton]
      · have he : encodeU64 n = [0x81, n] := by
          rw [encodeU64, hnb, encodeBytes,
            if_neg (by rintro ⟨-, hc⟩; simp [List.headI] at hc; omega :
              ¬([n].length = 1 ∧ [n].headI < 0x80))]
          rfl
        rw [he]
        have hh : decodeHeader (0x81 :: n :: rest) =
            .ok (⟨false, 1⟩, n :: rest) := by
          simp [decodeHeader, (by omega : ¬ n < 0x80), h128]
        show decodeU64 (0x81 :: n :: rest) = .ok (n, rest)
        simp only [decodeU64, hh]
        have ht1 : (n :: rest).take 1 = [n] := rfl
        have hd1 : (n :: rest).drop 1 = rest := rfl
        simp only [ht1, hd1]
        rw [if_neg (by simp : ((⟨false, 1⟩ : RlpHeader).isList = true → False)),
          if_neg (by norm_num : ¬ 8 < (⟨false, 1⟩ : RlpHeader).payloadLength),
          if_neg (by rintro ⟨hc1, -⟩; simp [List.headI] at hc1; omega :
            ¬([n].headI = 0 ∧ [n] ≠ [])),
          beBytesToNat_singleton]
  · -- n needs at least two payload bytes
    have hlen2 : 2 ≤ (natToBeBytes n).length := natToBeBytes_length_ge_two n h256
    have hlen8 : (natToBeBytes n).length ≤ 8 :=
      natToBeBytes_length_le 8 n (by norm_num at h ⊢; omega)
    have hh := decodeHeader_encodeBytes (natToBeBytes n) rest hlen2 (by omega)
    rw [encodeU64]
    simp only [decodeU64, hh]
    rw [if_neg (by simp :
        ((⟨false, (natToBeBytes n).length⟩ : RlpHeader).isList = true → False)),
      if_neg (by simpa using hlen8 :
        ¬ 8 < (⟨false, (natToBeBytes n).length⟩ : RlpHeader).payloadLength)]
    have htake : (natToBeBytes n ++ rest).take (natToBeBytes n).length =
        natToBeBytes n := List.take_left _ _
    have hdrop : (natToBeBytes n ++ rest).drop (natToBeBytes n).length =
        rest := List.drop_left _ _
    simp only [htake, hdrop]
    have hnz : ¬((natToBeBytes n).headI = 0 ∧ natToBeBytes n ≠ []) := by
      rintro ⟨hc1, -⟩
      exact natToBeBytes_headI_ne_zero n (by omega) hc1
    rw [if_neg hnz, beBytesToNat_natToBeBytes]

/-- Decoding a fixed-width field from an encoded string of the wrong
width fails with the typed UnexpectedLength error. -/
theorem decodeFixedBytes_encodeBytes_ne (w : Nat) (s rest : List Nat)
    (h2 : 2 ≤ s.length) (h56 : s.length < 56) (hw : s.length ≠ w) :
    decodeFixedBytes w (encodeBytes s ++ rest) =
      .error "UnexpectedLength" := by
  simp only [decodeFixedBytes, decodeHeader_encodeBytes s rest h2 h56]
  simp [hw]

/-- An encoded byte string of length 2..55 is one header byte longer
than its payload. -/
theorem encodeBytes_length (s : List Nat) (h2 : 2 ≤ s.length)
    (h56 : s.length < 56) :
    (encodeBytes s).length = s.length + 1 := by
  rw [encodeBytes, if_neg (fun hc => by omega), encodeLength, if_pos h56]
  simp [List.length_append]

/-- The amount encoding is never empty. -/
theorem encodeU64_length_pos (n : Nat) : 1 ≤ (encodeU64 n).length := by
  rw [encodeU64, encodeBytes]
  split_ifs with hc
  · omega
  · rw [encodeLength]
    split_ifs <;> simp [List.length_append]

/-- The amount encoding of a 64-bit value is at most nine bytes:
a header byte plus at most eight payload bytes. -/
theorem encodeU64_length_le_nine (n : Nat) (h : n < 2 ^ 64) :
    (encodeU64 n).length ≤ 9 := by
  have h8 : (natToBeBytes n).length ≤ 8 :=
    natToBeBytes_length_le 8 n (by norm_num at h ⊢; omega)
  rw [encodeU64, encodeBytes]
  split_ifs with hc
  · omega
  · rw [encodeLength, if_pos (by omega : (natToBeBytes n).length < 56)]
    simp [List.length_append]
    omega

/-- Binary round trip: RLP-encoding any WithdrawalRequest with the
fixed field widths and a 64-bit amount, then decoding, returns the
same record and consumes the whole buffer. -/
theorem withdrawalRequestDecode_encode (x : WithdrawalRequest)
    (h20 : x.source_address.length = 20)
    (h48 : x.validator_pubkey.length = 48)
    (hamt : x.amount < 2 ^ 64) :
    withdrawalRequestDecode (withdrawalRequestEncode x) = .ok (x, []) := by
  have hA : (encodeBytes x.source_address).length = x.source_address.length + 1 :=
    encodeBytes_length _ (by omega) (by omega)
  have hB : (encodeBytes x.validator_pubkey).length = x.validator_pubkey.length + 1 :=
    encodeBytes_length _ (by omega) (by omega)
  have hE1 : 1 ≤ (encodeU64 x.amount).length := encodeU64_length_pos _
  have hE9 : (encodeU64 x.amount).length ≤ 9 := encodeU64_length_le_nine _ hamt
  simp only [withdrawalRequestEncode]
  rw [List.append_assoc]
  have hlen : (encodeBytes x.source_address ++
      (encodeBytes x.validator_pubkey ++ encodeU64 x.amount)).length =
      70 + (encodeU64 x.amount).length := by
    simp only [List.length_append, hA, hB, h20, h48]
    omega
  have hh := decodeHeader_encodeLength_list
    (encodeBytes x.source_address ++
      (encodeBytes x.validator_pubkey ++ encodeU64 x.amount)).length
    (encodeBytes x.source_address ++
      (encodeBytes x.validator_pubkey ++ encodeU64 x.amount))
    (by rw [hlen]; omega) (by rw [hlen]; omega) (Nat.le_refl _)
  simp only [withdrawalRequestDecode, hh]
  have hfa := decodeFixedBytes_encodeBytes x.source_address
    (encodeBytes x.validator_pubkey ++ encodeU64 x.amount)
    (by omega) (by omega)
  rw [h20] at hfa
  have hfb := decodeFixedBytes_encodeBytes x.validator_pubkey
    (encodeU64 x.amount) (by omega) (by omega)
  rw [h48] at hfb
  have hfe := decodeU64_encodeU64 x.amount [] hamt
  rw [List.append_nil] at hfe
  simp only [hfa, hfb, hfe]
  simp

/-- Encoding a record whose address field is mis-sized (but still
2..55 bytes) produces a buffer whose first payload has that wrong
width; decoding it fails with the typed UnexpectedLength error. -/
theorem withdrawalRequestDecode_wrongAddressWidth (x : WithdrawalRequest)
    (hw2 : 6 ≤ x.source_address.length) (hw56 : x.source_address.length < 56)
    (hw : x.source_address.length ≠ 20)
    (h48 : x.validator_pubkey.length = 48)
    (hamt : x.amount < 2 ^ 64) :
    withdrawalRequestDecode (withdrawalRequestEncode x) =
      .error "UnexpectedLength" := by
  have hA : (encodeBytes x.source_address).length = x.source_address.length + 1 :=
    encodeBytes_length _ (by omega) (by omega)
  have hB : (encodeBytes x.validator_pubkey).length = x.validator_pubkey.length + 1 :=
    encodeBytes_length _ (by omega) (by omega)
  have hE1 : 1 ≤ (encodeU64 x.amount).length := encodeU64_length_pos _
  have hE9 : (encodeU64 x.amount).length ≤ 9 := encodeU64_length_le_nine _ hamt
  simp only [withdrawalRequestEncode]
  rw [List.append_assoc]
  have hlen : (encodeBytes x.source_address ++
      (encodeBytes x.validator_pubkey ++ encodeU64 x.amount)).length =
      x.source_address.length + 50 + (encodeU64 x.amount).length := by
    simp only [List.length_append, hA, hB, h48]
    omega
  have hh := decodeHeader_encodeLength_list
    (encodeBytes x.source_address ++
      (encodeBytes x.validator_pubkey ++ encodeU64 x.amount)).length
    (encodeBytes x.source_address ++
      (encodeBytes x.validator_pubkey ++ encodeU64 x.amount))
    (by rw [hlen]; omega) (by rw [hlen]; omega) (Nat.le_refl _)
  simp only [withdrawalRequestDecode, hh]
  have hfa := decodeFixedBytes_encodeBytes_ne 20 x.source_address
    (encodeBytes x.validator_pubkey ++ encodeU64 x.amount)
    (by omega) (by omega) hw
  simp only [hfa]
  simp

/-- Encoding a record whose public-key field is mis-sized (but still
2..55 bytes) produces a buffer whose second payload has that wrong
width; decoding it fails with the typed UnexpectedLength error. -/
theorem withdrawalRequestDecode_wrongPubkeyWidth (x : WithdrawalRequest)
    (h20 : x.source_address.length = 20)
    (hw2 : 34 ≤ x.validator_pubkey.length)
    (hw56 : x.validator_pubkey.length < 56)
    (hw : x.validator_pubkey.length ≠ 48)
    (hamt : x.amount < 2 ^ 64) :
    withdrawalRequestDecode (withdrawalRequestEncode x) =
      .error "UnexpectedLength" := by
  have hA : (encodeBytes x.source_address).length = x.source_address.length + 1 :=
    encodeBytes_length _ (by omega) (by omega)
  have hB : (encodeBytes x.validator_pubkey).length = x.validator_pubkey.length + 1 :=
    encodeBytes_length _ (by omega) (by omega)
  have hE1 : 1 ≤ (encodeU64 x.amount).length := encodeU64_length_pos _
  have hE9 : (encodeU64 x.amount).length ≤ 9 := encodeU64_length_le_nine _ hamt
  simp only [withdrawalRequestEncode]
  rw [List.append_assoc]
  have hlen : (encodeBytes x.source_address ++
      (encodeBytes x.validator_pubkey ++ encodeU64 x.amount)).length =
      x.validator_pubkey.length + 22 + (encodeU64 x.amount).length := by
    simp only [List.length_append, hA, hB, h20]
    omega
  have hh := decodeHeader_encodeLength_list
    (encodeBytes x.source_address ++
      (encodeBytes x.validator_pubkey ++ encodeU64 x.amount)).length
    (encodeBytes x.source_address ++
      (encodeBytes x.validator_pubkey ++ encodeU64 x.amount))
    (by rw [hlen]; omega) (by rw [hlen]; omega) (Nat.le_refl _)
  simp only [withdrawalRequestDecode, hh]
  have hfa := decodeFixedBytes_encodeBytes x.source_address
    (encodeBytes x.validator_pubkey ++ encodeU64 x.amount)
    (by omega) (by omega)
  rw [h20] at hfa
  have hfb := decodeFixedBytes_encodeBytes_ne 48 x.validator_pubkey
    (encodeU64 x.amount) (by omega) (by omega) hw
  simp only [hfa, hfb]
  simp

theorem hexCharToNibble_lower (d : Nat) (h : d < 16) :
    hexCharToNibble (nibbleToLowerHexChar d) = some d := by
  interval_cases d <;> decide

theorem hexCharToNibble_upper (d : Nat) (h : d < 16) :
    hexCharToNibble (nibbleToUpperHexChar d) = some d := by
  interval_cases d <;> decide

theorem bytesToLowerHexChars_length (bs : List Nat) :
    (bytesToLowerHexChars bs).length = 2 * bs.length := by
  induction bs with
  | nil => rfl
  | cons b t ih =>
    simp only [bytesToLowerHexChars, List.length_cons, ih]
    omega

theorem bytesToUpperHexChars_length (bs : List Nat) :
    (bytesToUpperHexChars bs).length = 2 * bs.length := by
  induction bs with
  | nil => rfl
  | cons b t ih =>
    simp only [bytesToUpperHexChars, List.length_cons, ih]
    omega

theorem hexPairsToBytes_lower (bs : List Nat) (h : ∀ b ∈ bs, b < 256) :
    hexPairsToBytes (bytesToLowerHexChars bs) = some bs := by
  induction bs with
  | nil => rfl
  | cons b t ih =>
    have hb : b < 256 := h b (List.mem_cons_self b t)
    have ht := ih (fun x hx => h x (List.mem_cons_of_mem b hx))
    have h1 : hexCharToNibble (nibbleToLowerHexChar (b / 16)) = some (b / 16) :=
      hexCharToNibble_lower _ (by omega)
    have h2 : hexCharToNibble (nibbleToLowerHexChar (b % 16)) = some (b % 16) :=
      hexCharToNibble_lower _ (by omega)
    simp only [bytesToLowerHexChars, hexPairsToBytes, h1, h2, ht]
    have hbb : 16 * (b / 16) + b % 16 = b := by omega
    rw [hbb]

theorem hexPairsToBytes_upper (bs : List Nat) (h : ∀ b ∈ bs, b < 256) :
    hexPairsToBytes (bytesToUpperHexChars bs) = some bs := by
  induction bs with
  | nil => rfl
  | cons b t ih =>
    have hb : b < 256 := h b (List.mem_cons_self b t)
    have ht := ih (fun x hx => h x (List.mem_cons_of_mem b hx))
    have h1 : hexCharToNibble (nibbleToUpperHexChar (b / 16)) = some (b / 16) :=
      hexCharToNibble_upper _ (by omega)
    have h2 : hexCharToNibble (nibbleToUpperHexChar (b % 16)) = some (b % 16) :=
      hexCharToNibble_upper _ (by omega)
    simp only [bytesToUpperHexChars, hexPairsToBytes, h1, h2, ht]
    have hbb : 16 * (b / 16) + b % 16 = b := by omega
    rw [hbb]

theorem nibbleToLowerHexChar_isLower (d : Nat) (h : d < 16) :
    isLowerHexDigit (nibbleToLowerHexChar d) := by
  interval_cases d <;> decide

theorem bytesToLowerHexChars_isLower (bs : List Nat)
    (h : ∀ b ∈ bs, b < 256) :
    ∀ c ∈ bytesToLowerHexChars bs, isLowerHexDigit c := by
  induction bs with
  | nil => intro c hc; cases hc
  | cons b t ih =>
    have hb : b < 256 := h b (List.mem_cons_self b t)
    intro c hc
    simp only [bytesToLowerHexChars] at hc
    rcases List.mem_cons.mp hc with rfl | hc
    · exact nibbleToLowerHexChar_isLower _ (by omega)
    · rcases List.mem_cons.mp hc with rfl | hc
      · exact nibbleToLowerHexChar_isLower _ (by omega)
      · exact ih (fun x hx => h x (List.mem_cons_of_mem b hx)) c hc

theorem parseHexFixed_serializeHexBytes (w : Nat) (bs : List Nat)
    (hw : bs.length = w) (h : ∀ b ∈ bs, b < 256) :
    parseHexFixed w (serializeHexBytes bs) = .ok bs := by
  have hdata : (serializeHexBytes bs).data =
      '0' :: 'x' :: bytesToLowerHexChars bs := rfl
  simp only [parseHexFixed, hdata]
  rw [if_pos ⟨by simp, rfl, rfl⟩]
  have hdrop : ('0' :: 'x' :: bytesToLowerHexChars bs).drop 2 =
      bytesToLowerHexChars bs := rfl
  rw [hdrop, bytesToLowerHexChars_length, hw, if_pos rfl,
    hexPairsToBytes_lower bs h]

theorem parseHexFixed_serializeHexBytesUpper (w : Nat) (bs : List Nat)
    (hw : bs.length = w) (h : ∀ b ∈ bs, b < 256) :
    parseHexFixed w (serializeHexBytesUpper bs) = .ok bs := by
  have hdata : (serializeHexBytesUpper bs).data =
      '0' :: 'x' :: bytesToUpperHexChars bs := rfl
  simp only [parseHexFixed, hdata]
  rw [if_pos ⟨by simp, rfl, rfl⟩]
  have hdrop : ('0' :: 'x' :: bytesToUpperHexChars bs).drop 2 =
      bytesToUpperHexChars bs := rfl
  rw [hdrop, bytesToUpperHexChars_length, hw, if_pos rfl,
    hexPairsToBytes_upper bs h]

theorem decDigitsAux_congr :
    ∀ f₁ : Nat, ∀ f₂ n : Nat, n < f₁ → n < f₂ →
      decDigitsAux f₁ n = decDigitsAux f₂ n := by
  intro f₁
  induction f₁ using Nat.strong_induction_on with
  | _ f₁ ih =>
    intro f₂ n h₁ h₂
    match f₁, f₂ with
    | 0, _ => exact absurd h₁ (by omega)
    | _ + 1, 0 => exact absurd h₂ (by omega)
    | f₁ + 1, f₂ + 1 =>
      by_cases hn : n < 10
      · simp [decDigitsAux, hn]
      · have hdiv : n / 10 < n := Nat.div_lt_self (by omega) (by norm_num)
        simp only [decDigitsAux, hn, if_false]
        rw [ih f₁ (Nat.lt_succ_self f₁) f₂ (n / 10) (by omega) (by omega)]

theorem natToDecDigits_eq (n : Nat) :
    natToDecDigits n =
      if n < 10 then [Char.ofNat (48 + n)]
      else natToDecDigits (n / 10) ++ [Char.ofNat (48 + n % 10)] := by
  by_cases hn : n < 10
  · simp [natToDecDigits, decDigitsAux, hn]
  · rw [if_neg hn]
    show decDigitsAux (n + 1) n = _
    simp only [decDigitsAux, hn, if_false]
    rw [decDigitsAux_congr n (n / 10 + 1) (n / 10)
      (Nat.div_lt_self (by omega) (by norm_num)) (Nat.lt_succ_self _)]
    rfl

theorem natToDecDigits_ne_nil (n : Nat) : natToDecDigits n ≠ [] := by
  rw [natToDecDigits_eq]
  split_ifs <;> simp

theorem charOfNat_digit_toNat (d : Nat) (h : d < 10) :
    (Char.ofNat (48 + d)).toNat = 48 + d := by
  interval_cases d <;> decide

theorem charOfNat_digit_isDigit (d : Nat) (h : d < 10) :
    (Char.ofNat (48 + d)).isDigit = true := by
  interval_cases d <;> decide

theorem natToDecDigits_all_digit (n : Nat) :
    ∀ c ∈ natToDecDigits n, c.isDigit = true := by
  induction n using Nat.strong_induction_on with
  | _ n ih =>
    intro c hc
    rw [natToDecDigits_eq] at hc
    by_cases hn : n < 10
    · rw [if_pos hn] at hc
      rcases List.mem_singleton.mp hc with rfl
      exact charOfNat_digit_isDigit n hn
    · rw [if_neg hn] at hc
      rcases List.mem_append.mp hc with hc | hc
      · exact ih (n / 10) (Nat.div_lt_self (by omega) (by norm_num)) c hc
      · rcases List.mem_singleton.mp hc with rfl
        exact charOfNat_digit_isDigit (n % 10) (by omega)

theorem digit_char_ne_plus (c : Char) (h : c.isDigit = true) : c ≠ '+' := by
  intro he
  rw [he] at h
  exact absurd h (by decide)

theorem parseDecDigits_append_singleton (l : List Char) (c : Char) :
    parseDecDigits (l ++ [c]) = parseDecDigits l * 10 + (c.toNat - 48) := by
  simp [parseDecDigits, List.foldl_append]

theorem parseDecDigits_natToDecDigits (n : Nat) :
    parseDecDigits (natToDecDigits n) = n := by
  induction n using Nat.strong_induction_on with
  | _ n ih =>
    rw [natToDecDigits_eq]
    by_cases hn : n < 10
    · rw [if_pos hn]
      have := charOfNat_digit_toNat n hn
      simp [parseDecDigits, this]
    · rw [if_neg hn, parseDecDigits_append_singleton,
        ih (n / 10) (Nat.div_lt_self (by omega) (by norm_num)),
        charOfNat_digit_toNat (n % 10) (by omega)]
      omega

theorem parseU64FromStr_natToDecString (n : Nat) (h : n < 2 ^ 64) :
    parseU64FromStr (natToDecString n) = .ok n := by
  have hdata : (natToDecString n).data = natToDecDigits n := rfl
  have hhead : (natToDecDigits n).headI ≠ '+' := by
    obtain ⟨c, t, hct⟩ :=
      List.exists_cons_of_ne_nil (natToDecDigits_ne_nil n)
    rw [hct]
    exact digit_char_ne_plus c (natToDecDigits_all_digit n c
      (by rw [hct]; exact List.mem_cons_self c t))
  rw [parseU64FromStr]
  rw [hdata, if_neg (by simpa using natToDecDigits_ne_nil n), if_neg hhead,
    if_pos (List.all_eq_true.mpr
      (fun c hc => natToDecDigits_all_digit n c hc)),
    parseDecDigits_natToDecDigits, if_pos h]

theorem textDecode_textEncode (x : WithdrawalRequest) (hwf : x.WF) :
    textDecode (textEncode x) = .ok x := by
  obtain ⟨h20, hab, h48, hpb, hamt⟩ := hwf
  have l1 : List.lookup "source_address" (textEncode x) =
      some (serializeHexBytes x.source_address) := rfl
  have l2 : List.lookup "validator_pubkey" (textEncode x) =
      some (serializeHexBytes x.validator_pubkey) := rfl
  have l3 : List.lookup "amount" (textEncode x) =
      some (natToDecString x.amount) := rfl
  simp only [textDecode, l1, l2, l3,
    parseHexFixed_serializeHexBytes 20 x.source_address h20 hab,
    parseHexFixed_serializeHexBytes 48 x.validator_pubkey h48 hpb,
    parseU64FromStr_natToDecString x.amount hamt]

theorem textDecode_upperCaseTextInput (x : WithdrawalRequest) (hwf : x.WF) :
    textDecode (upperCaseTextInput x) = .ok x := by
  obtain ⟨h20, hab, h48, hpb, hamt⟩ := hwf
  have l1 : List.lookup "source_address" (upperCaseTextInput x) =
      some (serializeHexBytesUpper x.source_address) := rfl
  have l2 : List.lookup "validator_pubkey" (upperCaseTextInput x) =
      some (serializeHexBytesUpper x.validator_pubkey) := rfl
  have l3 : List.lookup "amount" (upperCaseTextInput x) =
      some (natToDecString x.amount) := rfl
  simp only [textDecode, l1, l2, l3,
    parseHexFixed_serializeHexBytesUpper 20 x.source_address h20 hab,
    parseHexFixed_serializeHexBytesUpper 48 x.validator_pubkey h48 hpb,
    parseU64FromStr_natToDecString x.amount hamt]

/-- C1: the claim says the textual form of the amount field is a
0x-prefixed hex string (1 as "0x1") and that decoding accepts it.  On
the code this fails: the serde_as DisplayFromStr attribute serializes
the amount through the integer Display form, so 1 becomes the decimal
string "1", and the FromStr deserialization rejects "0x1" as a
non-decimal string — contradicting both the spec and the serde test
embedded in the source file.  The conjuncts evaluate the code model at
the failing inputs. -/
theorem c1_amount_textual_form_bug :
    List.lookup "amount"
      (textEncode ⟨List.replicate 20 0, List.replicate 48 0, 1⟩) =
        some "1" ∧
    natToDecString 1 ≠ "0x1" ∧
    parseU64FromStr "0x1" = .error "invalid digit found in string" ∧
    textDecode
      [("source_address", "0xae0e8770147aaa6828a0d6f642504663f10f7d1e"),
       ("validator_pubkey",
        "0x8e8d8749f6bc79b78be7cc6e49ff640e608454840c360b344c3a4d9b7428e280e7f40d2271bad65d8cbbfdd43cb8793b"),
       ("amount", "0x1")] = .error "invalid digit found in string" := by
  exact ⟨rfl, by decide, by decide, by decide⟩

/-- C2: the claim says the textual keys are the camel-case
sourceAddress / validatorPubkey / amount.  On the code this fails: the
serde derive carries no rename attribute, so the keys are the
snake-case Rust field names, and decoding a camel-case document fails
with a missing-field error — contradicting the spec and the serde test
embedded in the source file. -/
theorem c2_textual_key_names_bug :
    (textEncode defaultWithdrawalRequest).map Prod.fst =
      ["source_address", "validator_pubkey", "amount"] ∧
    ["source_address", "validator_pubkey", "amount"] ≠
      ["sourceAddress", "validatorPubkey", "amount"] ∧
    textDecode (camelCaseTextInput defaultWithdrawalRequest) =
      .error "missing field source_address" := by
  exact ⟨rfl, by decide, by decide⟩

/-- C3: for every well-formed record, textual decode of textual encode
returns the record; the hex characters emitted for the two byte-string
fields are always lower case; and the same document with upper-case
hex digits also decodes to the record (case-insensitive input,
lower-case output). -/
theorem c3_textual_round_trip (x : WithdrawalRequest) (hwf : x.WF) :
    textDecode (textEncode x) = .ok x ∧
    (∀ c ∈ bytesToLowerHexChars x.source_address, isLowerHexDigit c) ∧
    (∀ c ∈ bytesToLowerHexChars x.validator_pubkey, isLowerHexDigit c) ∧
    textDecode (upperCaseTextInput x) = .ok x :=
  ⟨textDecode_textEncode x hwf,
   bytesToLowerHexChars_isLower _ hwf.2.1,
   bytesToLowerHexChars_isLower _ hwf.2.2.2.1,
   textDecode_upperCaseTextInput x hwf⟩

theorem c3_textual_round_trip_witness :
    textDecode (textEncode defaultWithdrawalRequest) =
      .ok defaultWithdrawalRequest ∧
    textDecode (upperCaseTextInput defaultWithdrawalRequest) =
      .ok defaultWithdrawalRequest :=
  ⟨(c3_textual_round_trip defaultWithdrawalRequest (by decide)).1,
   (c3_textual_round_trip defaultWithdrawalRequest (by decide)).2.2.2⟩

/-- C4: binary (RLP) encoding never fails — it is a total function on
records — and decoding the encoding of any record with a 20-byte
address, 48-byte public key and 64-bit amount returns the same record
with the whole buffer consumed. -/
theorem c4_binary_round_trip (x : WithdrawalRequest)
    (h20 : x.source_address.length = 20)
    (h48 : x.validator_pubkey.length = 48)
    (hamt : x.amount < 2 ^ 64) :
    withdrawalRequestDecode (withdrawalRequestEncode x) = .ok (x, []) :=
  withdrawalRequestDecode_encode x h20 h48 hamt

theorem c4_binary_round_trip_witness :
    withdrawalRequestDecode (withdrawalRequestEncode testVector) =
      .ok (testVector, []) :=
  c4_binary_round_trip testVector (by decide) (by decide) (by decide)

/-- C5: the binary encoding of the amount field is the canonical
minimal big-endian integer form: the record encoder passes the amount
through encodeU64, zero encodes with an empty payload (just the empty
string header 0x80), the payload is empty exactly for zero, it never
starts with a zero byte, and it is a faithful (minimal) representation
of the value. -/
theorem c5_canonical_amount_encoding :
    (∀ x : WithdrawalRequest, withdrawalRequestEncode x =
      encodeLength 0xc0
        (encodeBytes x.source_address ++ encodeBytes x.validator_pubkey ++
          encodeU64 x.amount).length ++
        (encodeBytes x.source_address ++ encodeBytes x.validator_pubkey ++
          encodeU64 x.amount)) ∧
    encodeU64 0 = [0x80] ∧
    (∀ n : Nat, encodeU64 n = encodeBytes (natToBeBytes n)) ∧
    (∀ n : Nat, natToBeBytes n = [] ↔ n = 0) ∧
    (∀ n : Nat, (natToBeBytes n).head? ≠ some 0) ∧
    (∀ n : Nat, beBytesToNat (natToBeBytes n) = n) := by
  refine ⟨fun x => rfl, rfl, fun n => rfl, fun n => ?_, fun n => ?_,
    beBytesToNat_natToBeBytes⟩
  · constructor
    · intro he
      by_contra h0
      exact natToBeBytes_ne_nil n h0 he
    · rintro rfl
      rfl
  · by_cases h0 : n = 0
    · subst h0
      simp [natToBeBytes_zero]
    · obtain ⟨hd, tl, heq, hne⟩ := natToBeBytes_cons_head_ne_zero n h0
      rw [heq]
      simp [hne]

theorem c5_canonical_amount_encoding_witness :
    encodeU64 0 = [0x80] ∧
    (natToBeBytes 256).head? ≠ some 0 ∧
    beBytesToNat (natToBeBytes 77) = 77 :=
  ⟨c5_canonical_amount_encoding.2.1,
   c5_canonical_amount_encoding.2.2.2.2.1 256,
   c5_canonical_amount_encoding.2.2.2.2.2 77⟩

/-- C6: a buffer whose first (address) payload is 19 or 21 bytes fails
to decode with a typed decode error, as does a buffer whose second
(public-key) payload is 47 or 49 bytes; the buffers are built by
encoding records with the mis-sized field. -/
theorem c6_fixed_width_enforcement (x : WithdrawalRequest) :
    ((x.source_address.length = 19 ∨ x.source_address.length = 21) →
      x.validator_pubkey.length = 48 → x.amount < 2 ^ 64 →
      withdrawalRequestDecode (withdrawalRequestEncode x) =
        .error "UnexpectedLength") ∧
    (x.source_address.length = 20 →
      (x.validator_pubkey.length = 47 ∨ x.validator_pubkey.length = 49) →
      x.amount < 2 ^ 64 →
      withdrawalRequestDecode (withdrawalRequestEncode x) =
        .error "UnexpectedLength") := by
  constructor
  · intro hw h48 hamt
    exact withdrawalRequestDecode_wrongAddressWidth x
      (by rcases hw with h | h <;> omega)
      (by rcases hw with h | h <;> omega)
      (by rcases hw with h | h <;> omega) h48 hamt
  · intro h20 hw hamt
    exact withdrawalRequestDecode_wrongPubkeyWidth x h20
      (by rcases hw with h | h <;> omega)
      (by rcases hw with h | h <;> omega)
      (by rcases hw with h | h <;> omega) hamt

theorem c6_fixed_width_enforcement_witness :
    withdrawalRequestDecode (withdrawalRequestEncode
      ⟨List.replicate 19 0, List.replicate 48 0, 0⟩) =
      .error "UnexpectedLength" ∧
    withdrawalRequestDecode (withdrawalRequestEncode
      ⟨List.replicate 20 0, List.replicate 49 0, 0⟩) =
      .error "UnexpectedLength" :=
  ⟨(c6_fixed_width_enforcement
      ⟨List.replicate 19 0, List.replicate 48 0, 0⟩).1
      (Or.inl (by decide)) (by decide) (by decide),
   (c6_fixed_width_enforcement
      ⟨List.replicate 20 0, List.replicate 49 0, 0⟩).2
      (by decide) (Or.inr (by decide)) (by decide)⟩

/-- C7: binary decoding is total — on every input byte list it returns
either a decoded record (with the unconsumed tail) or a typed decode
error; being a Lean function, it can do nothing else (no panic or
abort exists in the model, matching the pure slice-reading code). -/
theorem c7_decode_total (bs : List Nat) :
    (∃ v, withdrawalRequestDecode bs = .ok v) ∨
    (∃ e, withdrawalRequestDecode bs = .error e) := by
  cases h : withdrawalRequestDecode bs with
  | ok v => exact .inl ⟨v, rfl⟩
  | error e => exact .inr ⟨e, rfl⟩

set_option maxRecDepth 10000 in
/-- C8: the published constants equal the fixed literal values of the
spec byte for byte: the system-caller address, the predeploy address,
the request-type discriminant and the contract bytecode blob. -/
theorem c8_published_constants :
    SYSTEM_ADDRESS = specSystemCallerAddress ∧
    WITHDRAWAL_REQUEST_PREDEPLOY_ADDRESS = specPredeployAddress ∧
    WITHDRAWAL_REQUEST_TYPE = specRequestTypeByte ∧
    WITHDRAWAL_REQUEST_PREDEPLOY_CODE = specPredeployCodeBytes :=
  ⟨by decide, by decide, rfl, by decide⟩

/-- C9: every encoder and decoder of the model is a pure function of
its input: equal inputs give equal outputs, with no dependence on call
order or prior calls (the model has no state a call could read or
write). -/
theorem c9_deterministic_pure (x y : WithdrawalRequest)
    (b₁ b₂ : List Nat) (k₁ k₂ : List (String × String)) :
    (x = y → withdrawalRequestEncode x = withdrawalRequestEncode y ∧
      textEncode x = textEncode y) ∧
    (b₁ = b₂ → withdrawalRequestDecode b₁ = withdrawalRequestDecode b₂) ∧
    (k₁ = k₂ → textDecode k₁ = textDecode k₂) :=
  ⟨fun h => by subst h; exact ⟨rfl, rfl⟩,
   fun h => by subst h; rfl,
   fun h => by subst h; rfl⟩

theorem c9_deterministic_pure_witness :
    withdrawalRequestEncode defaultWithdrawalRequest =
      withdrawalRequestEncode defaultWithdrawalRequest ∧
    textEncode defaultWithdrawalRequest =
      textEncode defaultWithdrawalRequest :=
  (c9_deterministic_pure defaultWithdrawalRequest defaultWithdrawalRequest
    [] [] [] []).1 rfl

/-- C10: the derived Default value is the all-zero address, all-zero
public key and amount zero; it is well formed, its binary encoding
succeeds, and decoding that encoding returns the same default value. -/
theorem c10_default_round_trip :
    defaultWithdrawalRequest.source_address = List.replicate 20 0 ∧
    defaultWithdrawalRequest.validator_pubkey = List.replicate 48 0 ∧
    defaultWithdrawalRequest.amount = 0 ∧
    defaultWithdrawalRequest.WF ∧
    withdrawalRequestDecode (withdrawalRequestEncode defaultWithdrawalRequest) =
      .ok (defaultWithdrawalRequest, []) :=
  ⟨rfl, rfl, rfl, by decide, by decide⟩

end Eip7002
